import Mathlib

/-!
Shallow embedding of the expression-binding engine of beagle-web-core,
file `src/bindings.ts`.  JavaScript values are modelled by `Value`,
JavaScript `undefined` by `Option.none` at the result level, thrown
`BeagleError`s by `Except`, and the regular expressions of the source are
implemented as deterministic scanners that follow JavaScript's
leftmost / first-alternative / greedy backtracking semantics.
-/

/-- The single-quote character (code point 39), written via `Char.ofNat`. -/
def squote : Char := Char.ofNat 39

/-- The backslash character (code point 92). -/
def backslash : Char := Char.ofNat 92

/-- The opening curly brace (code point 123). -/
def lbrace : Char := Char.ofNat 123

/-- The closing curly brace (code point 125). -/
def rbrace : Char := Char.ofNat 125

/-- Line terminators, which the JavaScript regex metacharacter `.` never matches:
LF, CR, U+2028 and U+2029. -/
def isLineTerminator (c : Char) : Bool :=
  c = Char.ofNat 10 || c = Char.ofNat 13 || c = Char.ofNat 8232 || c = Char.ofNat 8233

/-- JavaScript word character: the regex class `[\w\d_]`, i.e. `[A-Za-z0-9_]`. -/
def isWordChar (c : Char) : Bool := (c.isAlpha || c.isDigit) || c = '_'

/-- A JavaScript/JSON value as it occurs in Beagle UI trees.  A number is modelled
as the exact decimal `mantissa / 10 ^ scale` (`vNum mantissa scale`): the engine
never computes with numbers itself, it only parses decimal literals and prints
values, and on those operations exact decimals agree with JavaScript doubles. -/
inductive Value where
  | vNull : Value
  | vBool : Bool → Value
  | vNum : Int → Nat → Value
  | vStr : String → Value
  | vArr : List Value → Value
  | vObj : List (String × Value) → Value

/-- A named context scope (`DataContext` in `src/types`): an identifier plus a value. -/
structure DataContext where
  id : String
  value : Value

/-- The two error classes thrown by the engine (`src/errors`):
`BeagleParseError` and `BeagleNotFoundError`. -/
inductive BeagleError where
  | parseError : String → BeagleError
  | notFoundError : String → BeagleError

/-- A JavaScript runtime exception (not a `BeagleError`); the only one reachable in
this engine is the `TypeError` raised by `Object.keys(null)`. -/
inductive JsError where
  | typeError : String → JsError

/-- External collaborators of `bindings.ts` that are not part of the sources:
the operation registry (`src/operations`) and the context-hierarchy provider
`getContextHierarchy` (`src/context`).  They are passed explicitly.
An operation receives the resolved parameters (each possibly `undefined`)
and returns a value or `undefined`. -/
structure Env where
  operations : String → Option (List (Option Value) → Option Value)
  getContextHierarchy : List (String × Value) → List DataContext → List DataContext

/-- Modelled from the spec: `getContextInHierarchy` (from `src/context`, not part of
the sources) searches the hierarchy from innermost (last) to outermost (first) for
a context whose id equals the given identifier (spec §3, §4.4). -/
def getContextInHierarchy (contextHierarchy : List DataContext) (id : String) :
    Option DataContext :=
  contextHierarchy.reverse.find? (fun c => c.id = id)

/-- One segment of a lodash-style data path: an object field or an array index. -/
inductive PathSeg where
  | field : String → PathSeg
  | index : Nat → PathSeg

/-- Numeric value of a list of decimal digit characters. -/
def digitsToNat (ds : List Char) : Nat :=
  ds.foldl (fun acc c => acc * 10 + (c.toNat - 48)) 0

/-- Skips the closing bracket of an index segment, when present. -/
def dropCloseBracket (l : List Char) : List Char :=
  if l.head? = some ']' then l.tail else l


/-- Modelled from the spec: tokenizer for the remainder path handed to lodash `get`
(spec §4.4: dot access for object fields, bracket access for array indices).
Every step consumes at least one character, so the structural `gas` counter
(instantiated with the input length by `parseSegsAux`) never runs out. -/
def parseSegsGas : Nat → List Char → List PathSeg
  | _, [] => []
  | 0, _ :: _ => []
  | g + 1, c :: rest =>
    if c = '.' then parseSegsGas g rest
    else if c = '[' then
      let digits := rest.takeWhile Char.isDigit
      .index (digitsToNat digits) :: parseSegsGas g (dropCloseBracket (rest.drop digits.length))
    else
      let name := rest.takeWhile (fun ch => !(ch = '.' || ch = '['))
      .field (String.mk (c :: name)) :: parseSegsGas g (rest.drop name.length)

/-- Modelled from the spec: the token list of a lodash path string. -/
def parseSegsAux (cs : List Char) : List PathSeg := parseSegsGas cs.length cs

/-- Modelled from the spec: navigation of a parsed path into a value
(spec §4.4: dot access for object fields, bracket access for array indices);
any mismatch resolves to `undefined`. -/
def navigate : Value → List PathSeg → Option Value
  | v, [] => some v
  | .vObj fields, .field n :: rest =>
    match fields.find? (fun kv => kv.1 = n) with
    | some kv => navigate kv.2 rest
    | none => none
  | .vArr items, .index i :: rest =>
    match items.get? i with
    | some item => navigate item rest
    | none => none
  | _, _ => none

/-- Modelled from the spec: lodash `get` (external library) applied to a string path. -/
def lodashGet (v : Value) (path : String) : Option Value :=
  navigate v (parseSegsAux path.data)

/-! Path validation.  The source validates a binding path with the regex
`^[\w\d_]+(\[\d+\])*(\.([\w\d_]+(\[\d+\])*))*$` (bindings.ts line 31); the
following deterministic automaton recognizes exactly that language. -/

/-- States of the path-validation automaton: expecting the first character of an
identifier, inside an identifier, expecting the first index digit, inside an index,
or just after a closed index. -/
inductive PathState where
  | start | word | idxFirst | idx | afterIdx

/-- One transition of the path-validation automaton; `none` means the regex fails. -/
def pathStep : PathState → Char → Option PathState
  | .start, c => if isWordChar c then some .word else none
  | .word, c =>
    if isWordChar c then some .word
    else if c = '[' then some .idxFirst
    else if c = '.' then some .start
    else none
  | .idxFirst, c => if c.isDigit then some .idx else none
  | .idx, c =>
    if c.isDigit then some .idx
    else if c = ']' then some .afterIdx
    else none
  | .afterIdx, c =>
    if c = '[' then some .idxFirst
    else if c = '.' then some .start
    else none

/-- Accepting states of the path-validation automaton. -/
def pathAccepting : PathState → Bool
  | .word => true
  | .afterIdx => true
  | _ => false

/-- Runs the path-validation automaton over the remaining characters. -/
def validPathAux : PathState → List Char → Bool
  | s, [] => pathAccepting s
  | s, c :: cs =>
    match pathStep s c with
    | some s2 => validPathAux s2 cs
    | none => false

/-- Whether a path matches `^[\w\d_]+(\[\d+\])*(\.([\w\d_]+(\[\d+\])*))*$`
(bindings.ts line 31). -/
def isValidPath (path : String) : Bool :=
  validPathAux .start path.data

/-- The error message thrown by `getBindingValue` for an invalid path
(bindings.ts lines 32-34). -/
def invalidPathMessage (path : String) : String :=
  "invalid path \x22" ++ path ++
  "\x22. Please, make sure your variable names contain only letters, numbers and the symbol \x22_\x22. To access substructures use \x22.\x22 and to access array indexes use \x22[index]\x22."

/-- The match of `/^([^\.\[\]]+)\.?(.*)/` (bindings.ts line 37): group 1 is the
maximal nonempty prefix free of `.`, `[`, `]`; an optional dot is skipped; group 2
is the rest.  `none` when the regex does not match (empty group 1). -/
def splitPathHead (path : String) : Option (String × String) :=
  let cs := path.data
  let head := cs.takeWhile (fun c => !(c = '.' || c = '[' || c = ']'))
  if head.isEmpty then none
  else
    let rest := cs.drop head.length
    let rest2 := if rest.head? = some '.' then rest.tail else rest
    some (String.mk head, String.mk rest2)

/-- `getBindingValue` (bindings.ts lines 27-46): validate the path, split it into
context id and remainder, look the id up in the hierarchy, and navigate the
remainder with lodash `get`.  A missing context resolves to `undefined` (`.ok none`);
an invalid path throws a `BeagleParseError`. -/
def getBindingValue (path : String) (contextHierarchy : List DataContext) :
    Except BeagleError (Option Value) :=
  if !isValidPath path then
    .error (.parseError (invalidPathMessage path))
  else
    match splitPathHead path with
    | none => .ok none
    | some (contextId, contextPath) =>
      match getContextInHierarchy contextHierarchy contextId with
      | none => .ok none
      | some context =>
        .ok (if contextPath ≠ "" then lodashGet context.value contextPath
             else some context.value)

/-! The literal evaluator (bindings.ts lines 107-120). -/

/-- Whether a string matches `/^\d+(\.\d+)?$/` (bindings.ts line 114). -/
def isNumberLiteral (s : String) : Bool :=
  let cs := s.data
  let intPart := cs.takeWhile Char.isDigit
  let rest := cs.drop intPart.length
  !intPart.isEmpty &&
    (rest.isEmpty ||
      (rest.head? = some '.' && !rest.tail.isEmpty && rest.tail.all Char.isDigit))

/-- The exact decimal denoted by a numeral accepted by `isNumberLiteral`, as
JavaScript `parseFloat` produces it: leading integer zeros and trailing fraction
zeros do not survive (the result is the pair mantissa / scale of `Value.vNum`). -/
def parseDecimal (s : String) : Int × Nat :=
  let cs := s.data
  let intPart := cs.takeWhile Char.isDigit
  let rest := cs.drop intPart.length
  let frac := if rest.head? = some '.' then rest.tail else []
  let frac2 := (frac.reverse.dropWhile (fun c => c = '0')).reverse
  (Int.ofNat (digitsToNat (intPart ++ frac2)), frac2.length)

/-- The global replace `/(^')|('$)/g → ''` (bindings.ts line 118): remove a leading
quote, then a trailing quote of what remains. -/
def stripOuterQuotes (cs : List Char) : List Char :=
  let cs1 := if cs.head? = some squote then cs.tail else cs
  if cs1.getLast? = some squote then cs1.dropLast else cs1

/-- The global replace `/\\'/g → '` (bindings.ts line 118): each
backslash-quote pair becomes a quote, scanning left to right. -/
def unescapeQuotes : List Char → List Char
  | [] => []
  | [c] => [c]
  | c1 :: c2 :: rest =>
    if c1 = backslash && c2 = squote then squote :: unescapeQuotes rest
    else c1 :: unescapeQuotes (c2 :: rest)

/-- `getLiteralValue` (bindings.ts lines 107-120): `true`, `false`, `null`, an
unsigned decimal numeral, or a single-quoted string; `none` models the JavaScript
`undefined` of the fall-through (the "not a literal" sentinel). -/
def getLiteralValue (literal : String) : Option Value :=
  if literal = "true" then some (.vBool true)
  else if literal = "false" then some (.vBool false)
  else if literal = "null" then some .vNull
  else if isNumberLiteral literal then
    some (.vNum (parseDecimal literal).1 (parseDecimal literal).2)
  else if literal.data.head? = some squote && literal.data.getLast? = some squote then
    some (.vStr (String.mk (unescapeQuotes (stripOuterQuotes literal.data))))
  else none

/-! Printing of values, modelling the JavaScript stringification used at
bindings.ts line 155: `typeof v === 'object' ? JSON.stringify(v) : String(v)`. -/

/-- Decimal digits of a natural number, via `Nat.repr`. -/
def natDigits (n : Nat) : List Char := (toString n).data

/-- Prints the exact decimal `m / 10 ^ s` the way JavaScript prints the
corresponding number (sign, integer part, then a dot and `s` fraction digits). -/
def numToString (m : Int) (s : Nat) : String :=
  let sign : List Char := if m < 0 then ['-'] else []
  let ds := natDigits m.natAbs
  if s = 0 then String.mk (sign ++ ds)
  else
    let padded := if s + 1 ≤ ds.length then ds else List.replicate (s + 1 - ds.length) '0' ++ ds
    String.mk (sign ++ (padded.take (padded.length - s) ++ '.' :: padded.drop (padded.length - s)))

/-- Lower-case hexadecimal digit. -/
def hexDigitChar (n : Nat) : Char :=
  if n < 10 then Char.ofNat (48 + n) else Char.ofNat (87 + n)

/-- Modelled from the spec: escaping of one character inside a JSON string as
`JSON.stringify` (a JavaScript builtin, external to the sources) performs it. -/
def jsonEscapeChar (c : Char) : List Char :=
  if c = Char.ofNat 34 then [backslash, Char.ofNat 34]
  else if c = backslash then [backslash, backslash]
  else if c = Char.ofNat 10 then [backslash, 'n']
  else if c = Char.ofNat 13 then [backslash, 'r']
  else if c = Char.ofNat 9 then [backslash, 't']
  else if c = Char.ofNat 8 then [backslash, 'b']
  else if c = Char.ofNat 12 then [backslash, 'f']
  else if c.toNat < 32 then
    [backslash, 'u', '0', '0', hexDigitChar (c.toNat / 16), hexDigitChar (c.toNat % 16)]
  else [c]

mutual

/-- Modelled from the spec: `JSON.stringify` (a JavaScript builtin, external to the
sources) on the values this engine produces. -/
def jsonStringify : Value → String
  | .vNull => "null"
  | .vBool true => "true"
  | .vBool false => "false"
  | .vNum m s => numToString m s
  | .vStr s => String.mk (Char.ofNat 34 :: (s.data.map jsonEscapeChar).flatten ++ [Char.ofNat 34])
  | .vArr items => String.mk ('[' :: (jsonStringifyList items) ++ [']'])
  | .vObj fields => String.mk (lbrace :: (jsonStringifyFields fields) ++ [rbrace])

/-- Comma-separated JSON encodings of a list of array elements. -/
def jsonStringifyList : List Value → List Char
  | [] => []
  | [v] => (jsonStringify v).data
  | v :: rest => (jsonStringify v).data ++ ',' :: jsonStringifyList rest

/-- Comma-separated JSON encodings of a list of object fields. -/
def jsonStringifyFields : List (String × Value) → List Char
  | [] => []
  | [(k, v)] => (jsonStringify (.vStr k)).data ++ ':' :: (jsonStringify v).data
  | (k, v) :: rest =>
    (jsonStringify (.vStr k)).data ++ ':' :: (jsonStringify v).data ++ ',' :: jsonStringifyFields rest

end

/-- JavaScript `typeof v === 'object'`: true for objects, arrays and `null`. -/
def typeofIsObject : Value → Bool
  | .vNull => true
  | .vArr _ => true
  | .vObj _ => true
  | _ => false

/-- Modelled from the spec: JavaScript default string conversion `String(v)`
(template-literal interpolation) for the primitive values; composite values never
reach it in this engine because of the `typeof` guard. -/
def jsToString : Value → String
  | .vStr s => s
  | .vNum m s => numToString m s
  | .vBool true => "true"
  | .vBool false => "false"
  | .vNull => "null"
  | .vArr _ => ""
  | .vObj _ => "[object Object]"

/-- The stringification at bindings.ts line 155:
`typeof bindingValue === 'object' ? JSON.stringify(bindingValue) : bindingValue`
interpolated into a template literal. -/
def stringifyBindingValue (v : Value) : String :=
  if typeofIsObject v then jsonStringify v else jsToString v

/-! The parameter-list recognizer (bindings.ts lines 48-89).  The generic
`Automaton` class it relies on (`src/utils/Automaton`) is not part of the
sources; its matching discipline is modelled from spec §4.1: the rules of the
current state are tried in declaration order, a rule whose pattern matches a
prefix of the remaining input consumes that prefix, a push/pop manipulates the
stack of open parentheses, the special pop-empty rule of `isParameterListOver`
fires only on an empty stack, matching succeeds on reaching the final state and
returns the consumed prefix, and fails when no rule matches.  The rule patterns
themselves are the JavaScript regexes of the transition table in bindings.ts
lines 58-75, with JavaScript matching semantics; in particular the string rule
`/'([^']|(\\.))*'/` always prefers the first alternative `[^']` (which also
matches a backslash), so it consumes exactly up to the FIRST quote after the
opening one: the `(\\.)` escape alternative is unreachable.  Since `initial` is
exactly the states with an empty stack, the stack is modelled by the counter
`depth` of `dpaInside`, and `isParameterListOver` by the `depth = 1` test. -/

/-- Number of characters strictly before the first quote of the list, when any. -/
def splitAtFirstQuote : List Char → Option Nat
  | [] => none
  | c :: rest => if c = squote then some 0 else (splitAtFirstQuote rest).map (· + 1)

/-- One run of the parameter DPA, one rule application per step.  `depth` is the
number of open parentheses: `depth = 0` is the `initial` state of the transition
table, `depth > 0` the `insideParameterList` state (`initial` is entered exactly
when the stack is empty, so the stack is a counter); the `isParameterListOver`
state is the `depth` test after a pop.  In `initial` the rules are, in order,
`/,|$/` → final, `(` push, the string rule, `/[^\)]/`; in `insideParameterList`
they are `(` push, `)` pop, the string rule, `/./` (which does not match a line
terminator).  Returns the length of the consumed prefix, up to and including
reaching the final state.  The structural `gas` counter (instantiated with the
input length by `dpaInitial`) never runs out, because every step consumes at
least one character. -/
def dpaRunGas : Nat → Nat → List Char → Option Nat
  | _, depth, [] => if depth = 0 then some 0 else none
  | 0, _, _ :: _ => none
  | g + 1, 0, c :: rest =>
    if c = ',' then some 1
    else if c = '(' then (dpaRunGas g 1 rest).map (· + 1)
    else if c = squote then
      match splitAtFirstQuote rest with
      | some k => (dpaRunGas g 0 (rest.drop (k + 1))).map (fun n => n + k + 2)
      | none => (dpaRunGas g 0 rest).map (· + 1)
    else if c = ')' then none
    else (dpaRunGas g 0 rest).map (· + 1)
  | g + 1, depth + 1, c :: rest =>
    if c = '(' then (dpaRunGas g (depth + 2) rest).map (· + 1)
    else if c = ')' then (dpaRunGas g depth rest).map (· + 1)
    else if c = squote then
      match splitAtFirstQuote rest with
      | some k => (dpaRunGas g (depth + 1) (rest.drop (k + 1))).map (fun n => n + k + 2)
      | none => (dpaRunGas g (depth + 1) rest).map (· + 1)
    else if isLineTerminator c then none
    else (dpaRunGas g (depth + 1) rest).map (· + 1)

/-- `dpa.match` on the given input: run the automaton from the `initial` state. -/
def dpaInitial (cs : List Char) : Option Nat := dpaRunGas cs.length 0 cs



/-- JavaScript whitespace, for `String.prototype.trim`. -/
def isJsSpace (c : Char) : Bool := c.isWhitespace

/-- `String.prototype.trim` on a character list. -/
def jsTrim (cs : List Char) : List Char :=
  ((cs.dropWhile isJsSpace).reverse.dropWhile isJsSpace).reverse

/-- The replace `/,$/ → ''` of bindings.ts line 84: drop one trailing comma. -/
def dropTrailingComma (cs : List Char) : List Char :=
  if cs.getLast? = some ',' then cs.dropLast else cs

/-- `match.replace(/,$/, '').trim()` (bindings.ts line 84). -/
def trimParameter (cs : List Char) : String :=
  String.mk (jsTrim (dropTrailingComma cs))

/-- The `while` loop of `parseParameters` (bindings.ts lines 81-86): repeatedly
match the DPA on the remaining input, pushing each trimmed match; a failed match
throws a `BeagleParseError` naming the whole parameter string.  Every successful
DPA match consumes at least one character of a nonempty input (`dpaInitial_pos`),
so the structural `gas` counter (instantiated with the input length by
`parseParameters`) never runs out. -/
def parseParametersLoopGas (parameterString : String) :
    Nat → List Char → Except BeagleError (List String)
  | _, [] => .ok []
  | 0, _ :: _ => .error (.parseError ("wrong format for parameters: " ++ parameterString))
  | g + 1, c :: rest =>
    match dpaInitial (c :: rest) with
    | none => .error (.parseError ("wrong format for parameters: " ++ parameterString))
    | some n =>
      match parseParametersLoopGas parameterString g ((c :: rest).drop n) with
      | .error e => .error e
      | .ok ps => .ok (trimParameter ((c :: rest).take n) :: ps)

/-- `parseParameters` (bindings.ts lines 57-89): split a raw parameter-list string
into its top-level parameters via the pushdown automaton. -/
def parseParameters (parameterString : String) : Except BeagleError (List String) :=
  parseParametersLoopGas parameterString parameterString.data.length parameterString.data

/-- The match of `/^(\w[\w\d_]*)\((.*)\)$/` (bindings.ts line 92): a nonempty
leading run of word characters, an opening parenthesis, then anything up to a
closing parenthesis that ends the string; `.*` cannot cross a line terminator.
Returns (operation name, raw parameter string). -/
def matchOperation (s : String) : Option (String × String) :=
  let cs := s.data
  let name := cs.takeWhile isWordChar
  if name.isEmpty then none
  else
    match cs.drop name.length with
    | c :: rest =>
      if c = '(' then
        match rest.getLast? with
        | some last =>
          if last = ')' && rest.dropLast.all (fun ch => !isLineTerminator ch) then
            some (String.mk name, String.mk rest.dropLast)
          else none
        | none => none
      else none
    | [] => none

/-- `getOperationValue` (bindings.ts lines 91-105): parse `name(params)`, fail with
a `BeagleNotFoundError` when the registry has no such operation, split and
recursively evaluate the parameters, and apply the operation.  The recursive
evaluation of each parameter (`evaluateExpression` in the source) is received as
the argument `evalExpr`. -/
def getOperationValue (env : Env) (evalExpr : String → Except BeagleError (Option Value))
    (operation : String) : Except BeagleError (Option Value) :=
  match matchOperation operation with
  | none => .error (.parseError ("invalid operation in expression: " ++ operation))
  | some (operationName, paramString) =>
    match env.operations operationName with
    | none =>
      .error (.notFoundError ("operation with name \x22" ++ operationName ++ "\x22 doesn't exist."))
    | some op =>
      match parseParameters paramString with
      | .error e => .error e
      | .ok params =>
        match params.mapM evalExpr with
        | .error e => .error e
        | .ok resolvedParams => .ok (op resolvedParams)

/-- `evaluateExpression` (bindings.ts lines 122-131): literal first, else an
operation call when the expression contains `(`, else a context binding.  The
source recurses through `getOperationValue` without a bound; the `fuel` argument
is the termination device of the embedding (every theorem supplies enough fuel,
and runs that exhaust it end in a caught error). -/
def evaluateExpression : Nat → Env → String → List DataContext → Except BeagleError (Option Value)
  | 0, _, _, _ => .error (.parseError "maximum expression nesting depth exceeded")
  | fuel + 1, env, expression, contextHierarchy =>
    match getLiteralValue expression with
    | some literalValue => .ok (some literalValue)
    | none =>
      if expression.data.contains '(' then
        getOperationValue env (fun param => evaluateExpression fuel env param contextHierarchy)
          expression
      else
        getBindingValue expression contextHierarchy

/-! The string interpolator (bindings.ts lines 133-158).  The two regexes

`bindingRegex     = /(\\*)@\{(([^'\}]|('([^'\\]|\\.)*'))*)\}/g`  (line 24)
`fullBindingRegex = /^@\{(([^'\}]|('([^'\\]|\\.)*'))*)\}$/`      (line 25)

share the body grammar `([^'\}]|'([^'\\]|\\.)*')*`.  That grammar is
deterministic: outside a quote, `}` ends the body, a quote must open a quoted
segment and any other character is consumed; inside a quote, a quote closes the
segment, a backslash consumes the following (non line-terminator) character and
any other character is consumed.  An unterminated quoted segment makes the whole
match fail.  `parseBodyAux` implements exactly this, one character per step. -/

/-- States of the binding-body scanner: top level, inside a quoted segment, or
just after a backslash inside a quoted segment. -/
inductive BodyState where
  | top | quo | esc

/-- Scanner for the body grammar of the binding regexes, returning the body
characters (without the closing brace) and the remaining input. -/
def parseBodyAux : BodyState → List Char → Option (List Char × List Char)
  | _, [] => none
  | .top, c :: rest =>
    if c = rbrace then some ([], rest)
    else if c = squote then (parseBodyAux .quo rest).map (fun p => (c :: p.1, p.2))
    else (parseBodyAux .top rest).map (fun p => (c :: p.1, p.2))
  | .quo, c :: rest =>
    if c = squote then (parseBodyAux .top rest).map (fun p => (c :: p.1, p.2))
    else if c = backslash then (parseBodyAux .esc rest).map (fun p => (c :: p.1, p.2))
    else (parseBodyAux .quo rest).map (fun p => (c :: p.1, p.2))
  | .esc, c :: rest =>
    if isLineTerminator c then none
    else (parseBodyAux .quo rest).map (fun p => (c :: p.1, p.2))


/-- The match attempt of `bindingRegex` at the current position: a (possibly
empty) maximal run of backslashes, then `@` and an opening brace, then a body.
Returns (number of backslashes, body, rest after the match). -/
def matchBindingAt (cs : List Char) : Option (Nat × List Char × List Char) :=
  match cs.drop (cs.takeWhile (fun c => c = backslash)).length with
  | a :: b :: rest =>
    if a = '@' && b = lbrace then
      (parseBodyAux .top rest).map
        (fun p => ((cs.takeWhile (fun c => c = backslash)).length, p.1, p.2))
    else none
  | _ => none


/-- The full-string match of `fullBindingRegex` (bindings.ts line 25): the whole
string is `@`, an opening brace, a body and the final closing brace; returns the
body (capture group 1). -/
def fullBindingMatch (str : String) : Option String :=
  match str.data with
  | a :: b :: rest =>
    if a = '@' && b = lbrace then
      match parseBodyAux .top rest with
      | some (body, []) => some (String.mk body)
      | _ => none
    else none
  | _ => none

/-- The global replace `/\\\\/g → '\\'` (bindings.ts line 147): each pair of
backslashes collapses into one, scanning left to right. -/
def collapseBackslashPairs : List Char → List Char
  | [] => []
  | [c] => [c]
  | c1 :: c2 :: rest =>
    if c1 = backslash && c2 = backslash then c1 :: collapseBackslashPairs rest
    else c1 :: collapseBackslashPairs (c2 :: rest)

/-- The replace `/\\$/ → ''` (bindings.ts line 148): drop one trailing backslash. -/
def dropTrailingBackslash (cs : List Char) : List Char :=
  if cs.getLast? = some backslash then cs.dropLast else cs

/-- The full text matched by `bindingRegex` (`bindingStr` in the source): the
backslashes followed by `@`, a brace, the body and the closing brace. -/
def bindingStrOf (slashes : Nat) (body : List Char) : String :=
  String.mk (List.replicate slashes backslash ++ '@' :: lbrace :: body ++ [rbrace])

/-- The replacement callback of `str.replace(bindingRegex, ...)` (bindings.ts
lines 145-157): an odd number of backslashes escapes the binding (half the
backslashes, then the literal binding text); otherwise the expression is
evaluated, a caught error or an `undefined` result leaves the matched text
unchanged, and a value is stringified and substituted after half the
backslashes. -/
def bindingReplacer (fuel : Nat) (env : Env) (contextHierarchy : List DataContext)
    (slashes : Nat) (body : List Char) : String :=
  let isBindingScaped := slashes % 2 = 1
  let scapedSlashes := collapseBackslashPairs (List.replicate slashes backslash)
  if isBindingScaped then
    String.mk (dropTrailingBackslash scapedSlashes ++ '@' :: lbrace :: body ++ [rbrace])
  else
    match evaluateExpression fuel env (String.mk body) contextHierarchy with
    | .error _ => bindingStrOf slashes body
    | .ok none => bindingStrOf slashes body
    | .ok (some v) => String.mk (scapedSlashes ++ (stringifyBindingValue v).data)

/-- The left-to-right scan of `str.replace(bindingRegex, ...)`: at each position
try to match `bindingRegex`; on a match emit the callback's text and continue
after the match, otherwise emit the character and move on.  A match always
consumes at least one character (`matchBindingAt_length`), so the structural
`gas` counter (instantiated with the input length by `replaceLoop`) never runs
out; `replaceLoopGas_irrel` and the unfolding lemmas below make this precise. -/
def replaceLoopGas (fuel : Nat) (env : Env) (contextHierarchy : List DataContext) :
    Nat → List Char → List Char
  | _, [] => []
  | 0, cs => cs
  | g + 1, c :: rest =>
    match matchBindingAt (c :: rest) with
    | some (slashes, body, after) =>
      (bindingReplacer fuel env contextHierarchy slashes body).data ++
        replaceLoopGas fuel env contextHierarchy g after
    | none => c :: replaceLoopGas fuel env contextHierarchy g rest

/-- The scan of `str.replace(bindingRegex, ...)` over a character list. -/
def replaceLoop (fuel : Nat) (env : Env) (contextHierarchy : List DataContext)
    (cs : List Char) : List Char :=
  replaceLoopGas fuel env contextHierarchy cs.length cs





/-- `replaceBindingsInString` (bindings.ts lines 133-158): when the whole string
is one binding, evaluate it and return the value with its type preserved (the
original string on a caught error or an `undefined` result); otherwise replace
every `bindingRegex` match in the string. -/
def replaceBindingsInString (fuel : Nat) (env : Env) (str : String)
    (contextHierarchy : List DataContext) : Value :=
  match fullBindingMatch str with
  | some expr =>
    match evaluateExpression fuel env expr contextHierarchy with
    | .ok (some bindingValue) => bindingValue
    | .ok none => .vStr str
    | .error _ => .vStr str
  | none => .vStr (String.mk (replaceLoop fuel env contextHierarchy str.data))

/-- The reserved keys of the tree binder (bindings.ts line 170); note the leading
space in the second entry. -/
def ignoredKeys : List String := ["id", " _beagleComponent_", "context"]

mutual

/-- `replaceBindings` (bindings.ts lines 160-179): strings go through the
interpolator; arrays are mapped element-wise with the unchanged hierarchy;
for an object the hierarchy is first extended by `getContextHierarchy` and the
object is rebuilt key by key, reserved keys copied verbatim; any other value is
returned unchanged.  JavaScript's `typeof null === 'object'` sends `null` into
the object branch, where `Object.keys(null)` throws a `TypeError`. -/
def replaceBindings (fuel : Nat) (env : Env) (data : Value)
    (contextHierarchy : List DataContext) : Except JsError Value :=
  match data with
  | .vStr s => .ok (replaceBindingsInString fuel env s contextHierarchy)
  | .vArr items =>
    match replaceBindingsList fuel env items contextHierarchy with
    | .error e => .error e
    | .ok vs => .ok (.vArr vs)
  | .vNull => .error (.typeError "Cannot convert undefined or null to object")
  | .vObj fields =>
    match replaceBindingsFields fuel env fields (env.getContextHierarchy fields contextHierarchy) with
    | .error e => .error e
    | .ok fs => .ok (.vObj fs)
  | other => .ok other

/-- Element-wise `data.map(item => replaceBindings(item, contextHierarchy))`
(bindings.ts line 166), with a thrown `TypeError` propagating. -/
def replaceBindingsList (fuel : Nat) (env : Env) (items : List Value)
    (contextHierarchy : List DataContext) : Except JsError (List Value) :=
  match items with
  | [] => .ok []
  | item :: rest =>
    match replaceBindings fuel env item contextHierarchy with
    | .error e => .error e
    | .ok v =>
      match replaceBindingsList fuel env rest contextHierarchy with
      | .error e => .error e
      | .ok vs => .ok (v :: vs)

/-- The key-by-key rebuild `Object.keys(data).reduce(...)` (bindings.ts lines
172-175): a reserved key's value is copied verbatim, any other value is resolved
against the (possibly extended) hierarchy. -/
def replaceBindingsFields (fuel : Nat) (env : Env) (fields : List (String × Value))
    (hierarchy : List DataContext) : Except JsError (List (String × Value)) :=
  match fields with
  | [] => .ok []
  | (key, value) :: rest =>
    match (if ignoredKeys.contains key then .ok value
           else replaceBindings fuel env value hierarchy) with
    | .error e => .error e
    | .ok v =>
      match replaceBindingsFields fuel env rest hierarchy with
      | .error e => .error e
      | .ok vs => .ok ((key, v) :: vs)

end

/-- A concrete environment: an empty operation registry and a context-hierarchy
provider that never extends the hierarchy. -/
def emptyEnv : Env := { operations := fun _ => none, getContextHierarchy := fun _ h => h }

/-! Supporting lemmas and concrete environments for the claim theorems. -/

theorem dpaRunGas_pos (g : Nat) (depth : Nat) (c : Char) (rest : List Char) (n : Nat)
    (h : dpaRunGas (g + 1) depth (c :: rest) = some n) : 0 < n := by
  match depth with
  | 0 =>
    simp only [dpaRunGas] at h
    split_ifs at h
    · simp only [Option.some.injEq] at h; omega
    · rcases Option.map_eq_some'.mp h with ⟨m, -, hm⟩; omega
    · rcases hq : splitAtFirstQuote rest with - | k <;> rw [hq] at h <;> simp only at h
      · rcases Option.map_eq_some'.mp h with ⟨m, -, hm⟩; omega
      · rcases Option.map_eq_some'.mp h with ⟨m, -, hm⟩; omega
    · rcases Option.map_eq_some'.mp h with ⟨m, -, hm⟩; omega
  | depth + 1 =>
    simp only [dpaRunGas] at h
    split_ifs at h
    · rcases Option.map_eq_some'.mp h with ⟨m, -, hm⟩; omega
    · rcases Option.map_eq_some'.mp h with ⟨m, -, hm⟩; omega
    · rcases hq : splitAtFirstQuote rest with - | k <;> rw [hq] at h <;> simp only at h
      · rcases Option.map_eq_some'.mp h with ⟨m, -, hm⟩; omega
      · rcases Option.map_eq_some'.mp h with ⟨m, -, hm⟩; omega
    · rcases Option.map_eq_some'.mp h with ⟨m, -, hm⟩; omega

theorem dpaInitial_pos (c : Char) (rest : List Char) (n : Nat)
    (h : dpaInitial (c :: rest) = some n) : 0 < n := by
  exact dpaRunGas_pos rest.length 0 c rest n h

theorem parseBodyAux_length :
    ∀ (cs : List Char) (st : BodyState) (body rest : List Char),
      parseBodyAux st cs = some (body, rest) → rest.length < cs.length := by
  intro cs
  induction cs with
  | nil => intro st body rest h; cases st <;> simp [parseBodyAux] at h
  | cons c cs ih =>
    intro st body rest h
    cases st <;> simp only [parseBodyAux] at h <;> split_ifs at h
    · simp only [Option.some.injEq, Prod.mk.injEq] at h
      rcases h with ⟨-, h2⟩
      subst h2
      simp only [List.length_cons]
      omega
    all_goals
      rcases Option.map_eq_some'.mp h with ⟨⟨b2, r2⟩, hrec, heq⟩
    all_goals
      have := ih _ _ _ hrec
    all_goals
      simp only [Prod.mk.injEq] at heq
    all_goals
      rcases heq with ⟨-, hr⟩
    all_goals
      subst hr
    all_goals
      simp only [List.length_cons]
    all_goals omega

theorem matchBindingAt_length (cs : List Char) (k : Nat) (body rest : List Char)
    (h : matchBindingAt cs = some (k, body, rest)) : rest.length < cs.length := by
  unfold matchBindingAt at h
  split at h
  · rename_i a b rest2 hd
    split_ifs at h
    rcases Option.map_eq_some'.mp h with ⟨⟨b2, r2⟩, hrec, heq⟩
    simp only [Prod.mk.injEq] at heq
    rcases heq with ⟨-, -, hr⟩
    subst hr
    have h1 := parseBodyAux_length _ _ _ _ hrec
    have h2 : (cs.drop (cs.takeWhile (fun c => c = backslash)).length).length ≤ cs.length := by
      simp [List.length_drop]
    rw [hd] at h2
    simp only [List.length_cons] at h2
    omega
  · simp at h

theorem replaceLoopGas_irrel (fuel : Nat) (env : Env) (contextHierarchy : List DataContext) :
    ∀ (g g' : Nat) (cs : List Char), cs.length ≤ g → cs.length ≤ g' →
      replaceLoopGas fuel env contextHierarchy g cs =
        replaceLoopGas fuel env contextHierarchy g' cs := by
  intro g
  induction g with
  | zero =>
    intro g' cs hg hg'
    have : cs = [] := List.length_eq_zero.mp (Nat.le_zero.mp hg)
    subst this
    cases g' <;> rfl
  | succ g ih =>
    intro g' cs hg hg'
    match cs with
    | [] => cases g' <;> rfl
    | c :: rest =>
      match g' with
      | 0 => simp at hg'
      | g2 + 1 =>
        cases hm : matchBindingAt (c :: rest) with
        | some v =>
          rcases v with ⟨slashes, body, after⟩
          have hlen := matchBindingAt_length _ _ _ _ hm
          simp only [List.length_cons] at hlen hg hg'
          simp only [replaceLoopGas, hm]
          rw [ih g2 after (by omega) (by omega)]
        | none =>
          simp only [List.length_cons] at hg hg'
          simp only [replaceLoopGas, hm]
          rw [ih g2 rest (by omega) (by omega)]

theorem replaceLoop_nil (fuel : Nat) (env : Env) (contextHierarchy : List DataContext) :
    replaceLoop fuel env contextHierarchy [] = [] := rfl

theorem replaceLoop_cons_some (fuel : Nat) (env : Env) (contextHierarchy : List DataContext)
    (c : Char) (rest : List Char) (slashes : Nat) (body after : List Char)
    (hm : matchBindingAt (c :: rest) = some (slashes, body, after)) :
    replaceLoop fuel env contextHierarchy (c :: rest) =
      (bindingReplacer fuel env contextHierarchy slashes body).data ++
        replaceLoop fuel env contextHierarchy after := by
  have hlen := matchBindingAt_length _ _ _ _ hm
  simp only [List.length_cons] at hlen
  unfold replaceLoop
  simp only [List.length_cons, replaceLoopGas, hm]
  rw [replaceLoopGas_irrel fuel env contextHierarchy rest.length after.length after
    (by omega) (by omega)]

theorem replaceLoop_cons_none (fuel : Nat) (env : Env) (contextHierarchy : List DataContext)
    (c : Char) (rest : List Char)
    (hm : matchBindingAt (c :: rest) = none) :
    replaceLoop fuel env contextHierarchy (c :: rest) =
      c :: replaceLoop fuel env contextHierarchy rest := by
  unfold replaceLoop
  simp only [List.length_cons, replaceLoopGas, hm]


theorem mk_squote_ne (mid : List Char) (s : String) (hs : s.data.head? ≠ some squote) :
    String.mk (squote :: mid) ≠ s :=
  fun h => hs (by rw [← h]; rfl)

theorem takeWhile_all_append_not (p : Char → Bool) (l : List Char) (c : Char) (l' : List Char)
    (hl : l.all p = true) (hc : p c = false) : (l ++ c :: l').takeWhile p = l := by
  induction l with
  | nil => simp [List.takeWhile_cons, hc]
  | cons a l ih =>
    simp only [List.all_cons, Bool.and_eq_true] at hl
    simp [List.takeWhile_cons, hl.1, ih hl.2]

theorem takeWhile_backslash_replicate (n : Nat) (l : List Char) :
    (List.replicate n backslash ++ '@' :: l).takeWhile (fun c => c = backslash) =
      List.replicate n backslash := by
  refine takeWhile_all_append_not _ _ _ _ ?_ (by decide)
  simp

theorem collapse_replicate (n : Nat) :
    collapseBackslashPairs (List.replicate n backslash) =
      List.replicate (n - n / 2) backslash := by
  induction n using Nat.strong_induction_on with
  | _ n ih =>
    match n with
    | 0 => rfl
    | 1 => rfl
    | n + 2 =>
      rw [List.replicate_succ, List.replicate_succ]
      rw [collapseBackslashPairs]
      rw [if_pos (by simp)]
      rw [ih n (by omega)]
      have h2 : (n + 2) - (n + 2) / 2 = (n - n / 2) + 1 := by omega
      rw [h2, List.replicate_succ]

theorem dropTrailing_replicate_succ (k : Nat) :
    dropTrailingBackslash (List.replicate (k + 1) backslash) = List.replicate k backslash := by
  unfold dropTrailingBackslash
  rw [List.replicate_succ']
  rw [List.getLast?_concat]
  rw [if_pos rfl]
  exact List.dropLast_concat

theorem replaceLoop_ne_nil_some (fuel : Nat) (env : Env) (contextHierarchy : List DataContext)
    (cs : List Char) (slashes : Nat) (body after : List Char) (hne : cs ≠ [])
    (hm : matchBindingAt cs = some (slashes, body, after)) :
    replaceLoop fuel env contextHierarchy cs =
      (bindingReplacer fuel env contextHierarchy slashes body).data ++
        replaceLoop fuel env contextHierarchy after := by
  obtain ⟨c, rest, rfl⟩ := List.exists_cons_of_ne_nil hne
  exact replaceLoop_cons_some fuel env contextHierarchy c rest slashes body after hm

theorem replaceBindingsList_eq_mapM (fuel : Nat) (env : Env) (items : List Value)
    (contextHierarchy : List DataContext) :
    replaceBindingsList fuel env items contextHierarchy =
      items.mapM (fun item => replaceBindings fuel env item contextHierarchy) := by
  induction items with
  | nil => rfl
  | cons item rest ih =>
    rw [List.mapM_cons]
    simp only [replaceBindingsList]
    rw [ih]
    cases hr : replaceBindings fuel env item contextHierarchy with
    | error e => simp [Bind.bind, Except.bind]
    | ok v =>
      cases hrest : rest.mapM (fun item => replaceBindings fuel env item contextHierarchy) with
      | error e => simp [Bind.bind, Except.bind]
      | ok vs => simp [Bind.bind, Except.bind, Pure.pure, Except.pure]

theorem replaceBindingsFields_eq_mapM (fuel : Nat) (env : Env)
    (fields : List (String × Value)) (hierarchy : List DataContext) :
    replaceBindingsFields fuel env fields hierarchy =
      fields.mapM (fun kv =>
        if ignoredKeys.contains kv.1 then pure kv
        else (replaceBindings fuel env kv.2 hierarchy).map (fun v => (kv.1, v))) := by
  induction fields with
  | nil => rfl
  | cons kv rest ih =>
    rcases kv with ⟨key, value⟩
    rw [List.mapM_cons]
    simp only [replaceBindingsFields]
    rw [ih]
    by_cases hk : ignoredKeys.contains key
    · simp only [hk, if_pos]
      cases hrest : rest.mapM (fun kv =>
          if ignoredKeys.contains kv.1 then pure kv
          else (replaceBindings fuel env kv.2 hierarchy).map (fun v => (kv.1, v))) with
      | error e => simp [Bind.bind, Except.bind, Pure.pure, Except.pure]
      | ok vs => simp [Bind.bind, Except.bind, Pure.pure, Except.pure]
    · simp only [hk, if_neg]
      cases hr : replaceBindings fuel env value hierarchy with
      | error e => simp [Bind.bind, Except.bind, Except.map]
      | ok v =>
        cases hrest : rest.mapM (fun kv =>
            if ignoredKeys.contains kv.1 then pure kv
            else (replaceBindings fuel env kv.2 hierarchy).map (fun v => (kv.1, v))) with
        | error e => simp [Bind.bind, Except.bind, Except.map]
        | ok vs => simp [Bind.bind, Except.bind, Except.map, Pure.pure, Except.pure]

theorem matchOperation_name_parens (name : String) (hne : name.data ≠ [])
    (hall : name.data.all isWordChar = true) :
    matchOperation (name ++ "()") = some (name, "") := by
  simp only [matchOperation]
  have hdata : (name ++ "()").data = name.data ++ '(' :: [')'] := by
    cases name
    rfl
  rw [hdata]
  rw [takeWhile_all_append_not isWordChar name.data '(' [')'] hall (by decide)]
  rw [if_neg (by simp [List.isEmpty_iff, hne])]
  rw [List.drop_left]
  rfl

/-! Claim theorems. -/

/-- C1: the claim holds on its own example — the parameter string of
`f('a,b', g(1,2), 'x\'y')` splits into exactly three top-level parameters,
each preserved verbatim — but its universal part is false on the code: inside
`parseParameters` the string rule `/'([^']|(\\.))*'/` always prefers the first
alternative `[^']` (which also matches a backslash), so the `(\\.)` escape
alternative is dead and an escaped quote terminates the string token.  On the
parameter string `'a\',b'` (a single quoted string containing an escaped quote
and a comma) the comma is therefore treated as a top-level separator and the
function returns the two parameters `'a\'` and `b'` instead of one. -/
theorem claim_C1_parseParameters_quotes :
    parseParameters (String.mk
      [squote, 'a', ',', 'b', squote, ',', ' ', 'g', '(', '1', ',', '2', ')', ',', ' ',
       squote, 'x', backslash, squote, 'y', squote]) =
      .ok [String.mk [squote, 'a', ',', 'b', squote],
           String.mk ['g', '(', '1', ',', '2', ')'],
           String.mk [squote, 'x', backslash, squote, 'y', squote]] ∧
    parseParameters (String.mk [squote, 'a', backslash, squote, ',', 'b', squote]) =
      .ok [String.mk [squote, 'a', backslash, squote], String.mk ['b', squote]] :=
  ⟨rfl, rfl⟩

/-- C10: `parseParameters` maps the empty parameter string to the empty parameter
list rather than failing, and consequently an operation expression `name()` whose
name is registered invokes the registered operation with zero arguments. -/
theorem claim_C10_empty_parameter_list :
    parseParameters "" = .ok [] ∧
    (∀ (env : Env) (evalExpr : String → Except BeagleError (Option Value)) (name : String)
       (f : List (Option Value) → Option Value),
       name.data ≠ [] → name.data.all isWordChar = true → env.operations name = some f →
       getOperationValue env evalExpr (name ++ "()") = .ok (f [])) := by
  refine ⟨rfl, ?_⟩
  intro env evalExpr name f hne hall hop
  simp only [getOperationValue, matchOperation_name_parens name hne hall, hop]
  rfl

/-- C2: every error thrown during expression evaluation is caught at the string
interpolator and the triggering text is kept verbatim: a whole-string binding
whose expression evaluation throws yields the original string, a mid-string
(unescaped) occurrence whose evaluation throws is replaced by the matched text
itself, and concretely the unknown operation in the string (at)-brace
missing(1) brace leaves the string unchanged. -/
theorem claim_C2_errors_caught :
    (∀ (fuel : Nat) (env : Env) (contextHierarchy : List DataContext) (str expr : String)
       (e : BeagleError),
       fullBindingMatch str = some expr →
       evaluateExpression fuel env expr contextHierarchy = .error e →
       replaceBindingsInString fuel env str contextHierarchy = .vStr str) ∧
    (∀ (fuel : Nat) (env : Env) (contextHierarchy : List DataContext) (slashes : Nat)
       (body : List Char) (e : BeagleError),
       slashes % 2 = 0 →
       evaluateExpression fuel env (String.mk body) contextHierarchy = .error e →
       bindingReplacer fuel env contextHierarchy slashes body = bindingStrOf slashes body) ∧
    replaceBindingsInString 5 emptyEnv "@\x7bmissing(1)\x7d" [] =
      .vStr "@\x7bmissing(1)\x7d" := by
  refine ⟨?_, ?_, rfl⟩
  · intro fuel env h str expr e hfull herr
    simp only [replaceBindingsInString, hfull, herr]
  · intro fuel env h slashes body e hpar herr
    simp only [bindingReplacer]
    rw [if_neg (by omega)]
    simp only [herr]

/-- Witness for C2 at concrete inputs: the whole-string binding (at)-brace . brace
has an invalid path, its evaluation throws, and the interpolator returns the
original string; a mid-string occurrence with two backslashes and the same body
is kept verbatim. -/
theorem claim_C2_errors_caught_witness :
    replaceBindingsInString 1 emptyEnv "@\x7b.\x7d" [] = .vStr "@\x7b.\x7d" ∧
    bindingReplacer 1 emptyEnv [] 2 ['.'] = bindingStrOf 2 ['.'] :=
  ⟨claim_C2_errors_caught.1 1 emptyEnv [] "@\x7b.\x7d" "."
      (.parseError (invalidPathMessage ".")) rfl rfl,
    claim_C2_errors_caught.2.1 1 emptyEnv [] 2 ['.']
      (.parseError (invalidPathMessage ".")) rfl rfl⟩

/-- C3: when a string consists of exactly one binding, the interpolator returns
the evaluated value of the inner expression as-is, with its type preserved; when
the evaluation returns `undefined` or throws, the original string is returned
unchanged. -/
theorem claim_C3_full_binding_preserves_type :
    ∀ (fuel : Nat) (env : Env) (contextHierarchy : List DataContext) (str expr : String),
      fullBindingMatch str = some expr →
      (∀ v : Value, evaluateExpression fuel env expr contextHierarchy = .ok (some v) →
        replaceBindingsInString fuel env str contextHierarchy = v) ∧
      (evaluateExpression fuel env expr contextHierarchy = .ok none →
        replaceBindingsInString fuel env str contextHierarchy = .vStr str) ∧
      (∀ e : BeagleError, evaluateExpression fuel env expr contextHierarchy = .error e →
        replaceBindingsInString fuel env str contextHierarchy = .vStr str) := by
  intro fuel env h str expr hfull
  refine ⟨?_, ?_, ?_⟩
  · intro v hv; simp only [replaceBindingsInString, hfull, hv]
  · intro hu; simp only [replaceBindingsInString, hfull, hu]
  · intro e he; simp only [replaceBindingsInString, hfull, he]

/-- Witness for C3 at a concrete input: the whole-string binding over a context
holding an object returns the object itself, not a stringification. -/
theorem claim_C3_full_binding_preserves_type_witness :
    replaceBindingsInString 1 emptyEnv "@\x7bx\x7d" [⟨"x", .vObj [("a", .vNum 1 0)]⟩] =
      .vObj [("a", .vNum 1 0)] :=
  (claim_C3_full_binding_preserves_type 1 emptyEnv [⟨"x", .vObj [("a", .vNum 1 0)]⟩]
    "@\x7bx\x7d" "x" rfl).1 (.vObj [("a", .vNum 1 0)]) rfl

/-- Witness for C10 at a concrete input: a registry holding one operation `noop`
that returns `null`, invoked through `noop()` with zero arguments. -/
theorem claim_C10_empty_parameter_list_witness :
    getOperationValue
      { operations := fun n => if n = "noop" then some (fun _ => some .vNull) else none,
        getContextHierarchy := fun _ h => h }
      (fun _ => .ok none) ("noop" ++ "()") = .ok (some .vNull) :=
  claim_C10_empty_parameter_list.2
    { operations := fun n => if n = "noop" then some (fun _ => some .vNull) else none,
      getContextHierarchy := fun _ h => h }
    (fun _ => .ok none) "noop" (fun _ => some .vNull) (by decide) (by decide) rfl

/-- C5: context-path resolution first validates the path against the grammar of
the path regex and throws a `BeagleParseError` whose message cites the invalid
path; for a syntactically valid path whose leading identifier (group 1 of the
split regex) matches no context id anywhere in the hierarchy it resolves to
`undefined` instead of an error. -/
theorem claim_C5_path_validation_and_missing_context :
    ∀ (path : String) (contextHierarchy : List DataContext),
      (isValidPath path = false →
        getBindingValue path contextHierarchy =
          .error (.parseError (invalidPathMessage path))) ∧
      (∀ contextId rest, isValidPath path = true →
        splitPathHead path = some (contextId, rest) →
        (∀ c ∈ contextHierarchy, c.id ≠ contextId) →
        getBindingValue path contextHierarchy = .ok none) := by
  intro path h
  constructor
  · intro hval
    simp only [getBindingValue, hval, Bool.not_false, if_true]
  · intro cid rest hval hsplit hnone
    have hfind : getContextInHierarchy h cid = none := by
      unfold getContextInHierarchy
      rw [List.find?_eq_none]
      intro c hc
      simp only [decide_eq_true_eq]
      exact hnone c (List.mem_reverse.mp hc)
    simp only [getBindingValue, hval, Bool.not_true, Bool.false_eq_true, if_false, hsplit,
      hfind]

/-- Witness for C5 at concrete inputs: the path "a..b" is rejected with a parse
error citing it, and the valid path "user.name" over an empty hierarchy resolves
to `undefined`. -/
theorem claim_C5_path_validation_and_missing_context_witness :
    getBindingValue "a..b" [] = .error (.parseError (invalidPathMessage "a..b")) ∧
    getBindingValue "user.name" [] = .ok none :=
  ⟨(claim_C5_path_validation_and_missing_context "a..b" []).1 rfl,
    (claim_C5_path_validation_and_missing_context "user.name" []).2 "user" "name" rfl rfl
      (by intro c hc; cases hc)⟩

/-- C6: the expression evaluator dispatches with literal-first precedence: a
string recognized by the literal evaluator yields the literal value, otherwise a
string containing an opening parenthesis is evaluated as an operation call, and
only otherwise is the string resolved as a context binding — so a bare
literal-looking token is never looked up as a binding. -/
theorem claim_C6_dispatch_precedence :
    ∀ (fuel : Nat) (env : Env) (expression : String) (contextHierarchy : List DataContext),
      (∀ v : Value, getLiteralValue expression = some v →
        evaluateExpression (fuel + 1) env expression contextHierarchy = .ok (some v)) ∧
      (getLiteralValue expression = none → expression.data.contains '(' = true →
        evaluateExpression (fuel + 1) env expression contextHierarchy =
          getOperationValue env
            (fun param => evaluateExpression fuel env param contextHierarchy) expression) ∧
      (getLiteralValue expression = none → expression.data.contains '(' = false →
        evaluateExpression (fuel + 1) env expression contextHierarchy =
          getBindingValue expression contextHierarchy) := by
  intro fuel env expr h
  refine ⟨?_, ?_, ?_⟩
  · intro v hv
    simp only [evaluateExpression, hv]
  · intro hlit hop
    simp only [evaluateExpression, hlit, hop, if_true]
  · intro hlit hop
    simp only [evaluateExpression, hlit, hop, Bool.false_eq_true, if_false]

/-- Witness for C6 at concrete inputs: `true` evaluates to the boolean literal
even when a context named `true` is in scope, and `x` (no literal, no
parenthesis) goes to the context binding. -/
theorem claim_C6_dispatch_precedence_witness :
    evaluateExpression 1 emptyEnv "true" [⟨"true", .vNum 9 0⟩] = .ok (some (.vBool true)) ∧
    evaluateExpression 1 emptyEnv "x" [⟨"x", .vNum 9 0⟩] =
      getBindingValue "x" [⟨"x", .vNum 9 0⟩] :=
  ⟨(claim_C6_dispatch_precedence 0 emptyEnv "true" [⟨"true", .vNum 9 0⟩]).1
      (.vBool true) rfl,
    (claim_C6_dispatch_precedence 0 emptyEnv "x" [⟨"x", .vNum 9 0⟩]).2.2 rfl rfl⟩

/-- C7: the literal evaluator returns `true`, `false` and `null` for the three
keywords, the parsed decimal for a numeral, and the unquoted content (with the
escaped quotes unescaped) for a single-quoted string; for every string matching
none of these forms it returns the `undefined` sentinel (`Option.none`), which
is distinguishable from every literal value — in particular from `null`,
`false` and the empty string. -/
theorem claim_C7_literal_evaluator :
    getLiteralValue "true" = some (.vBool true) ∧
    getLiteralValue "false" = some (.vBool false) ∧
    getLiteralValue "null" = some .vNull ∧
    (∀ s : String, isNumberLiteral s = true →
      getLiteralValue s = some (.vNum (parseDecimal s).1 (parseDecimal s).2)) ∧
    (∀ mid : List Char,
      getLiteralValue (String.mk (squote :: mid ++ [squote])) =
        some (.vStr (String.mk (unescapeQuotes mid)))) ∧
    (∀ s : String, s ≠ "true" → s ≠ "false" → s ≠ "null" → isNumberLiteral s = false →
      ¬(s.data.head? = some squote ∧ s.data.getLast? = some squote) →
      getLiteralValue s = none) ∧
    (∀ v : Value, (none : Option Value) ≠ some v) := by
  refine ⟨rfl, rfl, rfl, ?_, ?_, ?_, fun v h => Option.noConfusion h⟩
  · intro s hnum
    have h1 : s ≠ "true" := by intro hh; subst hh; exact absurd hnum (by decide)
    have h2 : s ≠ "false" := by intro hh; subst hh; exact absurd hnum (by decide)
    have h3 : s ≠ "null" := by intro hh; subst hh; exact absurd hnum (by decide)
    simp only [getLiteralValue, if_neg h1, if_neg h2, if_neg h3, hnum, if_true]
  · intro mid
    have h1 : String.mk (squote :: (mid ++ [squote])) ≠ "true" :=
      mk_squote_ne (mid ++ [squote]) "true" (by decide)
    have h2 : String.mk (squote :: (mid ++ [squote])) ≠ "false" :=
      mk_squote_ne (mid ++ [squote]) "false" (by decide)
    have h3 : String.mk (squote :: (mid ++ [squote])) ≠ "null" :=
      mk_squote_ne (mid ++ [squote]) "null" (by decide)
    have hnum : isNumberLiteral (String.mk (squote :: (mid ++ [squote]))) = false := by
      simp [isNumberLiteral, List.takeWhile_cons, show squote.isDigit = false from by decide]
    have hlast : (squote :: (mid ++ [squote])).getLast? = some squote := by
      rw [← List.cons_append]
      exact List.getLast?_concat (squote :: mid)
    have hstrip : stripOuterQuotes (squote :: (mid ++ [squote])) = mid := by
      show (if (mid ++ [squote]).getLast? = some squote then (mid ++ [squote]).dropLast
            else mid ++ [squote]) = mid
      rw [List.getLast?_concat, if_pos rfl]
      exact List.dropLast_concat
    simp only [List.cons_append]
    simp only [getLiteralValue, hnum, Bool.false_eq_true, if_false, List.head?_cons, hlast,
      hstrip]
    rw [if_neg h1, if_neg h2, if_neg h3]
    simp
  · intro s h1 h2 h3 hnum hq
    simp only [getLiteralValue, if_neg h1, if_neg h2, if_neg h3, hnum, Bool.false_eq_true,
      if_false]
    rw [if_neg (by simp only [Bool.and_eq_true, decide_eq_true_eq]; exact fun hh => hq hh)]

/-- Witness for C7 at concrete inputs: the numeral `3.50` parses to the decimal
35/10 and the non-literal `abc` yields the sentinel. -/
theorem claim_C7_literal_evaluator_witness :
    getLiteralValue "3.50" = some (.vNum 35 1) ∧ getLiteralValue "abc" = none :=
  ⟨claim_C7_literal_evaluator.2.2.2.1 "3.50" (by decide),
    claim_C7_literal_evaluator.2.2.2.2.2.1 "abc" (by decide) (by decide) (by decide)
      (by decide) (by decide)⟩

theorem data_mk (cs : List Char) : (String.mk cs).data = cs := rfl

theorem bindingReplacer_odd (fuel : Nat) (env : Env) (contextHierarchy : List DataContext)
    (slashes : Nat) (body : List Char) (hodd : slashes % 2 = 1) :
    bindingReplacer fuel env contextHierarchy slashes body =
      String.mk (List.replicate (slashes / 2) backslash ++ '@' :: lbrace :: body ++ [rbrace]) := by
  simp only [bindingReplacer]
  rw [if_pos hodd]
  rw [collapse_replicate]
  have h2 : slashes - slashes / 2 = slashes / 2 + 1 := by omega
  rw [h2, dropTrailing_replicate_succ]

theorem bindingReplacer_even (fuel : Nat) (env : Env) (contextHierarchy : List DataContext)
    (slashes : Nat) (body : List Char) (v : Value) (heven : slashes % 2 = 0)
    (hv : evaluateExpression fuel env (String.mk body) contextHierarchy = .ok (some v)) :
    bindingReplacer fuel env contextHierarchy slashes body =
      String.mk (List.replicate (slashes / 2) backslash ++ (stringifyBindingValue v).data) := by
  simp only [bindingReplacer]
  rw [if_neg (by omega)]
  simp only [hv]
  rw [collapse_replicate]
  have h2 : slashes - slashes / 2 = slashes / 2 := by omega
  rw [h2]

theorem matchBindingAt_replicate (n : Nat) (body rest r : List Char)
    (hr : parseBodyAux .top r = some (body, rest)) :
    matchBindingAt (List.replicate n backslash ++ '@' :: lbrace :: r) =
      some (n, body, rest) := by
  unfold matchBindingAt
  rw [takeWhile_backslash_replicate]
  rw [List.length_replicate]
  have hdrop : (List.replicate n backslash ++ '@' :: lbrace :: r).drop n =
      '@' :: lbrace :: r := by
    have h := List.drop_left (List.replicate n backslash) ('@' :: lbrace :: r)
    rwa [List.length_replicate] at h
  rw [hdrop]
  simp only [hr]
  simp

/-- C4: for a mid-string binding occurrence preceded by exactly `n` backslashes,
the replacement emits `n / 2` backslashes followed by the literal binding text
unresolved when `n` is odd, and followed by the stringified resolved value
(`JSON.stringify` for object-typed values, the natural string form otherwise,
per `stringifyBindingValue`) when `n` is even; the third conjunct exercises the
whole interpolator on a family of strings with an arbitrary backslash count. -/
theorem claim_C4_backslash_escaping :
    (∀ (fuel : Nat) (env : Env) (contextHierarchy : List DataContext) (n : Nat)
       (body : List Char), n % 2 = 1 →
       bindingReplacer fuel env contextHierarchy n body =
         String.mk (List.replicate (n / 2) backslash ++ '@' :: lbrace :: body ++ [rbrace])) ∧
    (∀ (fuel : Nat) (env : Env) (contextHierarchy : List DataContext) (n : Nat)
       (body : List Char) (v : Value), n % 2 = 0 →
       evaluateExpression fuel env (String.mk body) contextHierarchy = .ok (some v) →
       bindingReplacer fuel env contextHierarchy n body =
         String.mk (List.replicate (n / 2) backslash ++ (stringifyBindingValue v).data)) ∧
    (∀ n : Nat,
      replaceBindingsInString 1 emptyEnv
          (String.mk ('A' :: (List.replicate n backslash ++ ['@', lbrace, 'x', rbrace])))
          [⟨"x", .vNum 7 0⟩] =
        .vStr (String.mk ('A' :: (List.replicate (n / 2) backslash ++
          (if n % 2 = 1 then ['@', lbrace, 'x', rbrace] else ['7']))))) := by
  refine ⟨bindingReplacer_odd, bindingReplacer_even, ?_⟩
  intro n
  have hfull : fullBindingMatch
      (String.mk ('A' :: (List.replicate n backslash ++ ['@', lbrace, 'x', rbrace]))) =
      none := by
    cases n with
    | zero => rfl
    | succ m => rfl
  have hA : matchBindingAt ('A' :: (List.replicate n backslash ++ ['@', lbrace, 'x', rbrace])) =
      none := by
    cases n with
    | zero => rfl
    | succ m => rfl
  have hmB : matchBindingAt (List.replicate n backslash ++ ['@', lbrace, 'x', rbrace]) =
      some (n, ['x'], []) :=
    matchBindingAt_replicate n ['x'] [] ['x', rbrace] rfl
  simp only [replaceBindingsInString, hfull, data_mk]
  rw [replaceLoop_cons_none 1 emptyEnv _ 'A' _ hA]
  rw [replaceLoop_ne_nil_some 1 emptyEnv _ _ n ['x'] [] (by simp) hmB]
  rw [replaceLoop_nil]
  simp only [List.append_nil]
  rcases Nat.mod_two_eq_zero_or_one n with hpar | hpar
  · rw [bindingReplacer_even 1 emptyEnv [⟨"x", .vNum 7 0⟩] n ['x'] (.vNum 7 0) hpar rfl]
    rw [if_neg (by omega)]
    exact rfl
  · rw [bindingReplacer_odd 1 emptyEnv [⟨"x", .vNum 7 0⟩] n ['x'] hpar]
    rw [if_pos hpar]
    simp [data_mk, List.append_assoc]

/-- Witness for C4 at concrete inputs: three backslashes escape the binding
(one backslash plus literal text), two backslashes halve and resolve, and the
scan family at five backslashes leaves the binding text after two backslashes. -/
theorem claim_C4_backslash_escaping_witness :
    bindingReplacer 1 emptyEnv [] 3 ['x'] =
      String.mk (List.replicate 1 backslash ++ '@' :: lbrace :: ['x'] ++ [rbrace]) ∧
    bindingReplacer 1 emptyEnv [⟨"x", .vNum 7 0⟩] 2 ['x'] =
      String.mk (List.replicate 1 backslash ++ (stringifyBindingValue (.vNum 7 0)).data) ∧
    replaceBindingsInString 1 emptyEnv
        (String.mk ('A' :: (List.replicate 5 backslash ++ ['@', lbrace, 'x', rbrace])))
        [⟨"x", .vNum 7 0⟩] =
      .vStr (String.mk ('A' :: (List.replicate 2 backslash ++ ['@', lbrace, 'x', rbrace]))) :=
  ⟨claim_C4_backslash_escaping.1 1 emptyEnv [] 3 ['x'] (by decide),
    claim_C4_backslash_escaping.2.1 1 emptyEnv [⟨"x", .vNum 7 0⟩] 2 ['x'] (.vNum 7 0)
      (by decide) rfl,
    claim_C4_backslash_escaping.2.2 5⟩

/-- C8: the tree binder's reserved-key guard is the list `id`, space-prefixed
`_beagleComponent_`, `context`; a field whose key is in the guard is copied
verbatim — never interpolated — even when its value contains binding syntax,
while a string under the correctly spelled key `_beagleComponent_` (no leading
space) IS resolved, because the guard lists only the space-prefixed variant. -/
theorem claim_C8_reserved_keys :
    ignoredKeys = ["id", " _beagleComponent_", "context"] ∧
    (∀ (fuel : Nat) (env : Env) (hierarchy : List DataContext) (key : String) (value : Value)
       (rest : List (String × Value)), ignoredKeys.contains key = true →
       replaceBindingsFields fuel env ((key, value) :: rest) hierarchy =
         (replaceBindingsFields fuel env rest hierarchy).map
           (fun vs => (key, value) :: vs)) ∧
    replaceBindings 1 emptyEnv
        (.vObj [("_beagleComponent_", .vStr "@\x7bx\x7d"),
                (" _beagleComponent_", .vStr "@\x7bx\x7d"),
                ("id", .vStr "@\x7bx\x7d"), ("context", .vStr "@\x7bx\x7d")])
        [⟨"x", .vStr "R"⟩] =
      .ok (.vObj [("_beagleComponent_", .vStr "R"),
                  (" _beagleComponent_", .vStr "@\x7bx\x7d"),
                  ("id", .vStr "@\x7bx\x7d"), ("context", .vStr "@\x7bx\x7d")]) := by
  refine ⟨rfl, ?_, ?_⟩
  · intro fuel env hierarchy key value rest hk
    simp only [replaceBindingsFields, hk, if_true]
    cases hfr : replaceBindingsFields fuel env rest hierarchy with
    | error e => simp [Except.map]
    | ok vs => simp [Except.map]
  · simp [replaceBindings, replaceBindingsFields, ignoredKeys, emptyEnv]
    rfl

/-- Witness for C8 at a concrete input: a field under the reserved key `id` is
copied verbatim even though its value is binding syntax. -/
theorem claim_C8_reserved_keys_witness :
    replaceBindingsFields 1 emptyEnv [("id", .vStr "@\x7bx\x7d")] [] =
      (replaceBindingsFields 1 emptyEnv [] []).map
        (fun vs => ("id", .vStr "@\x7bx\x7d") :: vs) :=
  claim_C8_reserved_keys.2.1 1 emptyEnv [] "id" (.vStr "@\x7bx\x7d") [] (by decide)

/-- C9: disproof at a concrete input: `null` is a non-string, non-array,
non-object scalar of the data model, but JavaScript types it as `'object'`, so
the tree binder sends it into the object branch, where `Object.keys(null)`
throws a `TypeError` — the value is not returned unchanged. -/
theorem claim_C9_scalar_counterexample :
    replaceBindings 1 emptyEnv .vNull [] =
      .error (.typeError "Cannot convert undefined or null to object") ∧
    replaceBindings 1 emptyEnv .vNull [] ≠ .ok .vNull := by
  constructor
  · simp [replaceBindings]
  · simp [replaceBindings]

/-- C9 (amended): the tree binder resolves strings through the interpolator,
maps arrays element-wise with the same unmodified hierarchy, rebuilds objects
key by key against the hierarchy extended by `getContextHierarchy` for that node
(so the extension reaches the node's descendants but not its siblings), passes
booleans and numbers through unchanged, and raises a `TypeError` on `null`,
which JavaScript types as `'object'`. -/
theorem claim_C9_tree_walk :
    ∀ (fuel : Nat) (env : Env) (contextHierarchy : List DataContext),
      (∀ items : List Value,
        replaceBindings fuel env (.vArr items) contextHierarchy =
          (items.mapM (fun item => replaceBindings fuel env item contextHierarchy)).map
            Value.vArr) ∧
      (∀ fields : List (String × Value),
        replaceBindings fuel env (.vObj fields) contextHierarchy =
          (fields.mapM (fun kv =>
            if ignoredKeys.contains kv.1 then pure kv
            else (replaceBindings fuel env kv.2
                (env.getContextHierarchy fields contextHierarchy)).map
              (fun v => (kv.1, v)))).map Value.vObj) ∧
      (∀ b : Bool, replaceBindings fuel env (.vBool b) contextHierarchy = .ok (.vBool b)) ∧
      (∀ (m : Int) (s : Nat),
        replaceBindings fuel env (.vNum m s) contextHierarchy = .ok (.vNum m s)) ∧
      (∀ str : String, replaceBindings fuel env (.vStr str) contextHierarchy =
        .ok (replaceBindingsInString fuel env str contextHierarchy)) ∧
      replaceBindings fuel env .vNull contextHierarchy =
        .error (.typeError "Cannot convert undefined or null to object") := by
  intro fuel env h
  refine ⟨?_, ?_, ?_, ?_, ?_, ?_⟩
  · intro items
    simp only [replaceBindings]
    rw [replaceBindingsList_eq_mapM]
    cases hm : items.mapM (fun item => replaceBindings fuel env item h) with
    | error e => simp [Except.map]
    | ok vs => simp [Except.map]
  · intro fields
    simp only [replaceBindings]
    rw [replaceBindingsFields_eq_mapM]
    cases hm : fields.mapM (fun kv =>
        if ignoredKeys.contains kv.1 then pure kv
        else (replaceBindings fuel env kv.2 (env.getContextHierarchy fields h)).map
          (fun v => (kv.1, v))) with
    | error e => simp [Except.map]
    | ok vs => simp [Except.map]
  · intro b; simp [replaceBindings]
  · intro m s; simp [replaceBindings]
  · intro str; simp [replaceBindings]
  · simp [replaceBindings]
